import Mathlib

/-!
Verification of the NMT training/decoding program (src/nmt.py) against its
natural-language specification.  Each Python function relevant to the claims is
shallowly embedded as an executable Lean definition; external collaborators
(the encoder/decoder networks, nltk corpus_bleu, the file system) are
abstracted as parameters.
-/

/-- Python max over a list of naturals: `max([])` raises ValueError, modelled
as `none`; on a nonempty list it is a left fold of binary max. -/
def pyMax : List Nat → Option Nat
  | [] => none
  | x :: xs => some (xs.foldl max x)

/-- Numpy-style row fill: a zero row of width `w` whose first `row.length`
entries are `row`.  In sent_padding the assigned slice always has
`row.length ≤ w`, so this equals `row` followed by zeros. -/
def padTo (w : Nat) (row : List ℤ) : List ℤ :=
  row ++ List.replicate (w - row.length) 0

/-- Rows of a numpy matrix allocated with `batchSize` zero rows of width `w`,
whose first `rows.length` rows were overwritten by `rows` (the loop in
sent_padding runs over `zip(src_sents, tgt_sents)`, which may be shorter
than `batchSize`). -/
def rowsFor (batchSize : Nat) (w : Nat) (rows : List (List ℤ)) : List (List ℤ) :=
  (List.range batchSize).map fun i => (rows.get? i).getD (List.replicate w 0)

/-- The five values returned by sent_padding (src/nmt.py lines 344-373):
padded source matrix, true source lengths, padded decoder-input matrix,
padded decoder-target matrix, true decoder lengths. -/
structure PadResult where
  srcMat : List (List ℤ)
  srcLens : List Nat
  yInputMat : List (List ℤ)
  yTargetMat : List (List ℤ)
  tgtLens : List Nat
deriving Repr, DecidableEq

/-- sent_padding (src/nmt.py lines 344-373).  `max([len(s) for s in sents])`
raises ValueError on an empty list (modelled as the error case); otherwise
the function zips source with target sentences, slices each target into
`sent[:-1]` (dropLast) and `sent[1:]` (drop 1), and writes each row into a
zero matrix of the per-batch maximal width.  No emptiness or length check is
performed on the individual sentences. -/
def sent_padding (src_sents tgt_sents : List (List ℤ)) : Except String PadResult :=
  match pyMax (src_sents.map List.length) with
  | none => Except.error ("ValueError: max() arg is an empty sequence")
  | some maxSrcLen =>
    match pyMax (tgt_sents.map List.length) with
    | none => Except.error ("ValueError: max() arg is an empty sequence")
    | some maxTgtLen =>
      let pairs := src_sents.zip tgt_sents
      let batchSize := src_sents.length
      Except.ok
        { srcMat := rowsFor batchSize maxSrcLen (pairs.map fun p => padTo maxSrcLen p.1)
          srcLens := pairs.map fun p => p.1.length
          yInputMat := rowsFor batchSize maxTgtLen (pairs.map fun p => padTo maxTgtLen p.2.dropLast)
          yTargetMat := rowsFor batchSize maxTgtLen (pairs.map fun p => padTo maxTgtLen (p.2.drop 1))
          tgtLens := pairs.map fun p => p.2.dropLast.length }

/-- Projection used to state concrete facts about the decoder-input matrix. -/
def yInputOf (r : Except String PadResult) : List (List ℤ) :=
  match r with
  | Except.ok v => v.yInputMat
  | Except.error _ => []

/-- Claim C6 (counterexample): on the batch of the end-to-end scenario the
decoder-input matrix is NOT the width-2 matrix [[1,7],[1,7,8]] the claim
states; the code pads both decoder matrices to the maximal full target
length 4. -/
theorem C6_counterexample :
    (sent_padding [[4, 5], [4, 5, 6]] [[1, 7, 2], [1, 7, 8, 2]]).isOk = true ∧
    yInputOf (sent_padding [[4, 5], [4, 5, 6]] [[1, 7, 2], [1, 7, 8, 2]]) =
      [[1, 7, 0, 0], [1, 7, 8, 0]] ∧
    yInputOf (sent_padding [[4, 5], [4, 5, 6]] [[1, 7, 2], [1, 7, 8, 2]]) ≠
      [[(1 : ℤ), 7], [1, 7, 8]] := by
  decide

/-- Claim C6 (amended): padding sources [[4,5],[4,5,6]] with targets
[[1,7,2],[1,7,8,2]] yields a source matrix of width 3 ([[4,5,0],[4,5,6]]),
and decoder-input/decoder-target matrices of width 4 (the maximal full
target length), namely [[1,7,0,0],[1,7,8,0]] and [[7,2,0,0],[7,8,2,0]],
with true decoder lengths [2,3]. -/
theorem C6_amended :
    sent_padding [[4, 5], [4, 5, 6]] [[1, 7, 2], [1, 7, 8, 2]] =
      Except.ok
        { srcMat := [[4, 5, 0], [4, 5, 6]]
          srcLens := [2, 3]
          yInputMat := [[1, 7, 0, 0], [1, 7, 8, 0]]
          yTargetMat := [[7, 2, 0, 0], [7, 8, 2, 0]]
          tgtLens := [2, 3] } := by
  rfl

/-- Claim C3 (counterexample): a batch whose only source sentence is empty and
whose only target sentence has length 1 (fewer than the two sentinel
tokens) is padded successfully instead of signalling an error. -/
theorem C3_counterexample :
    (sent_padding [([] : List ℤ)] [[5]]).isOk = true := by
  decide

/-- Claim C3 (amended): sent_padding fails (ValueError from max of an empty
sequence) exactly when the source list or the target list is empty; empty
individual sentences and target sentences of length below 2 are not
rejected and produce a padded result. -/
theorem C3_amended (src_sents tgt_sents : List (List ℤ)) :
    (sent_padding src_sents tgt_sents).isOk = false ↔
      (src_sents = [] ∨ tgt_sents = []) := by
  cases src_sents <;> cases tgt_sents <;>
    simp [sent_padding, pyMax, Except.isOk, Except.toBool]

theorem le_foldl_max {α : Type} [LinearOrder α] (x : α) (l : List α) :
    x ≤ l.foldl max x := by
  induction l generalizing x with
  | nil => exact le_refl x
  | cons y ys ih =>
    simp only [List.foldl_cons]
    exact le_trans (le_max_left x y) (ih (max x y))

theorem mem_le_foldl_max {α : Type} [LinearOrder α] {y : α} (x : α) {l : List α}
    (h : y ∈ l) : y ≤ l.foldl max x := by
  induction l generalizing x with
  | nil => cases h
  | cons a as ih =>
    simp only [List.foldl_cons]
    rcases List.mem_cons.mp h with rfl | h2
    · exact le_trans (le_max_right x y) (le_foldl_max (max x y) as)
    · exact ih (max x a) h2

theorem foldl_max_lt_iff {α : Type} [LinearOrder α] (m x : α) (l : List α) :
    l.foldl max x < m ↔ x < m ∧ ∀ y ∈ l, y < m := by
  induction l generalizing x with
  | nil => simp
  | cons y ys ih =>
    simp only [List.foldl_cons, ih (max x y), max_lt_iff, List.mem_cons]
    constructor
    · rintro ⟨⟨h1, h2⟩, h3⟩
      exact ⟨h1, fun z hz => hz.elim (fun e => e ▸ h2) (h3 z)⟩
    · rintro ⟨h1, h2⟩
      exact ⟨⟨h1, h2 y (Or.inl rfl)⟩, fun z hz => h2 z (Or.inr hz)⟩

theorem pyMax_ne_none {l : List Nat} (h : l ≠ []) : ∃ m, pyMax l = some m := by
  cases l with
  | nil => exact absurd rfl h
  | cons x xs => exact ⟨xs.foldl max x, rfl⟩

theorem pyMax_le {l : List Nat} {m : Nat} (h : pyMax l = some m) :
    ∀ x ∈ l, x ≤ m := by
  cases l with
  | nil => simp [pyMax] at h
  | cons a as =>
    intro x hx
    simp only [pyMax, Option.some.injEq] at h
    subst h
    rcases List.mem_cons.mp hx with rfl | hx2
    · exact le_foldl_max x as
    · exact mem_le_foldl_max a hx2

theorem pyMax_eq_foldl_zero {l : List Nat} {m : Nat} (h : pyMax l = some m) :
    m = l.foldl max 0 := by
  cases l with
  | nil => simp [pyMax] at h
  | cons a as =>
    simp only [pyMax, Option.some.injEq] at h
    simp only [List.foldl_cons, Nat.zero_max]
    exact h.symm

theorem rowsFor_eq {rows : List (List ℤ)} {n w : Nat} (h : rows.length = n) :
    rowsFor n w rows = rows := by
  subst h
  apply List.ext_getElem (by simp [rowsFor])
  intro i h1 h2
  simp only [rowsFor, List.getElem_map, List.getElem_range,
    List.get?_eq_getElem?, List.getElem?_eq_getElem h2, Option.getD_some]

theorem padTo_take (w : Nat) (row : List ℤ) :
    (padTo w row).take row.length = row :=
  List.take_left _ _

theorem padTo_length {w : Nat} {row : List ℤ} (h : row.length ≤ w) :
    (padTo w row).length = w := by
  simp only [padTo, List.length_append, List.length_replicate]
  omega

theorem padTo_getD {w j : Nat} {row : List ℤ} (h : row.length ≤ j) :
    (padTo w row).getD j 0 = 0 := by
  rw [List.getD_eq_getElem?_getD, padTo, List.getElem?_append_right h]
  rcases lt_or_ge (j - row.length) (w - row.length) with hlt | hge
  · simp [List.getElem?_replicate, hlt]
  · rw [List.getElem?_eq_none (by simpa using hge)]
    rfl

/-- Claim C2: on a non-empty batch of paired non-empty source sentences and
target sentences of length at least 2, sent_padding succeeds and, for every
example i, the first tgtLens[i] entries of the decoder-input row are the
target sentence minus its final token, the first tgtLens[i] entries of the
decoder-target row are the target sentence minus its first token, every
source row has width equal to the maximum of the returned source lengths,
and all entries beyond each row's true length are zero. -/
theorem C2_padding (src_sents tgt_sents : List (List ℤ))
    (hne : src_sents ≠ [])
    (hlen : src_sents.length = tgt_sents.length)
    (hsrc : ∀ s ∈ src_sents, s ≠ [])
    (htgt : ∀ t ∈ tgt_sents, 2 ≤ t.length) :
    ∃ r, sent_padding src_sents tgt_sents = Except.ok r ∧
      ∀ i, i < src_sents.length →
        (r.yInputMat.getD i []).take (r.tgtLens.getD i 0) = (tgt_sents.getD i []).dropLast ∧
        (r.yTargetMat.getD i []).take (r.tgtLens.getD i 0) = (tgt_sents.getD i []).drop 1 ∧
        (r.srcMat.getD i []).length = r.srcLens.foldl max 0 ∧
        (∀ j, r.srcLens.getD i 0 ≤ j → (r.srcMat.getD i []).getD j 0 = 0) ∧
        (∀ j, r.tgtLens.getD i 0 ≤ j → (r.yInputMat.getD i []).getD j 0 = 0) ∧
        (∀ j, r.tgtLens.getD i 0 ≤ j → (r.yTargetMat.getD i []).getD j 0 = 0) := by
  obtain ⟨Ms, hMs⟩ := pyMax_ne_none (l := src_sents.map List.length) (by simpa using hne)
  have htne : tgt_sents ≠ [] := by
    intro h
    rw [h, List.length_nil, List.length_eq_zero] at hlen
    exact hne hlen
  obtain ⟨Mt, hMt⟩ := pyMax_ne_none (l := tgt_sents.map List.length) (by simpa using htne)
  have hpairs : (src_sents.zip tgt_sents).length = src_sents.length := by
    simp [List.length_zip, hlen]
  have hrun : sent_padding src_sents tgt_sents = Except.ok
      { srcMat := (src_sents.zip tgt_sents).map fun p => padTo Ms p.1
        srcLens := (src_sents.zip tgt_sents).map fun p => p.1.length
        yInputMat := (src_sents.zip tgt_sents).map fun p => padTo Mt p.2.dropLast
        yTargetMat := (src_sents.zip tgt_sents).map fun p => padTo Mt (p.2.drop 1)
        tgtLens := (src_sents.zip tgt_sents).map fun p => p.2.dropLast.length } := by
    simp only [sent_padding, hMs, hMt]
    rw [rowsFor_eq (by simp [hpairs]), rowsFor_eq (by simp [hpairs]),
      rowsFor_eq (by simp [hpairs])]
  refine ⟨_, hrun, ?_⟩
  dsimp only
  intro i hi
  have hit : i < tgt_sents.length := hlen ▸ hi
  have hip : i < (src_sents.zip tgt_sents).length := by rw [hpairs]; exact hi
  have hzip : (src_sents.zip tgt_sents)[i] = (src_sents[i], tgt_sents[i]) :=
    List.getElem_zip (i := i)
  have hgetD : ∀ (f : List ℤ × List ℤ → List ℤ),
      ((src_sents.zip tgt_sents).map f).getD i [] = f (src_sents[i], tgt_sents[i]) := by
    intro f
    rw [List.getD_eq_getElem?_getD, List.getElem?_map, List.getElem?_eq_getElem hip, hzip]
    rfl
  have hgetDn : ∀ (f : List ℤ × List ℤ → Nat),
      ((src_sents.zip tgt_sents).map f).getD i 0 = f (src_sents[i], tgt_sents[i]) := by
    intro f
    rw [List.getD_eq_getElem?_getD, List.getElem?_map, List.getElem?_eq_getElem hip, hzip]
    rfl
  have htD : tgt_sents.getD i [] = tgt_sents[i] := by
    rw [List.getD_eq_getElem?_getD, List.getElem?_eq_getElem hit]
    rfl
  have hdlen : (tgt_sents[i].drop 1).length = tgt_sents[i].dropLast.length := by
    rw [List.length_drop, List.length_dropLast]
  have hsle : src_sents[i].length ≤ Ms :=
    pyMax_le hMs _ (List.mem_map_of_mem List.length (List.getElem_mem hi))
  refine ⟨?_, ?_, ?_, ?_, ?_, ?_⟩
  · rw [hgetD, hgetDn, htD]
    exact padTo_take Mt tgt_sents[i].dropLast
  · rw [hgetD, hgetDn, htD, ← hdlen]
    exact padTo_take Mt (tgt_sents[i].drop 1)
  · rw [hgetD]
    have hmaps : ((src_sents.zip tgt_sents).map fun p => p.1.length)
        = src_sents.map List.length := by
      rw [show (fun (p : List ℤ × List ℤ) => p.1.length) = List.length ∘ Prod.fst from rfl,
        ← List.map_map, List.map_fst_zip _ _ (le_of_eq hlen)]
    rw [hmaps, padTo_length hsle, ← pyMax_eq_foldl_zero hMs]
  · intro j hj
    rw [hgetDn] at hj
    rw [hgetD]
    exact padTo_getD hj
  · intro j hj
    rw [hgetDn] at hj
    rw [hgetD]
    exact padTo_getD hj
  · intro j hj
    rw [hgetDn] at hj
    rw [hgetD]
    exact padTo_getD (hdlen ▸ hj)

/-- Claim C2 witness: the padding theorem applied to the concrete batch with
sources [[4,5],[4,5,6]] and targets [[1,7,2],[1,7,8,2]]. -/
theorem C2_padding_witness :
    (([[4, 5], [4, 5, 6]] : List (List ℤ)) ≠ [] ∧
      ([[4, 5], [4, 5, 6]] : List (List ℤ)).length
        = ([[1, 7, 2], [1, 7, 8, 2]] : List (List ℤ)).length ∧
      (∀ s ∈ ([[4, 5], [4, 5, 6]] : List (List ℤ)), s ≠ []) ∧
      (∀ t ∈ ([[1, 7, 2], [1, 7, 8, 2]] : List (List ℤ)), 2 ≤ t.length)) ∧
    (∃ r, sent_padding [[4, 5], [4, 5, 6]] [[1, 7, 2], [1, 7, 8, 2]] = Except.ok r ∧
      ∀ i, i < ([[4, 5], [4, 5, 6]] : List (List ℤ)).length →
        (r.yInputMat.getD i []).take (r.tgtLens.getD i 0)
          = (([[1, 7, 2], [1, 7, 8, 2]] : List (List ℤ)).getD i []).dropLast ∧
        (r.yTargetMat.getD i []).take (r.tgtLens.getD i 0)
          = (([[1, 7, 2], [1, 7, 8, 2]] : List (List ℤ)).getD i []).drop 1 ∧
        (r.srcMat.getD i []).length = r.srcLens.foldl max 0 ∧
        (∀ j, r.srcLens.getD i 0 ≤ j → (r.srcMat.getD i []).getD j 0 = 0) ∧
        (∀ j, r.tgtLens.getD i 0 ≤ j → (r.yInputMat.getD i []).getD j 0 = 0) ∧
        (∀ j, r.tgtLens.getD i 0 ≤ j → (r.yTargetMat.getD i []).getD j 0 = 0)) :=
  ⟨⟨by decide, by decide, by decide, by decide⟩,
    C2_padding [[4, 5], [4, 5, 6]] [[1, 7, 2], [1, 7, 8, 2]]
      (by decide) (by decide) (by decide) (by decide)⟩

/-- Training control state at a validation event of train (src/nmt.py lines
425-428): the patience counter, the trial counter num_trial, the Validation
History hist_valid_scores, and whether exit(0) was reached.  The metric
type is any linear order (the source compares floats with the usual
order). -/
structure VState (α : Type) where
  patience : Nat
  numTrial : Nat
  hist : List α
  stopped : Bool
deriving Repr, DecidableEq

/-- Events observable at one validation decision of the training loop. -/
structure VEvents where
  saved : Bool
  patienceIncremented : Bool
  trialIncremented : Bool
  reloaded : Bool
  stopped : Bool
deriving Repr, DecidableEq

/-- Python max over a list of a linear order, as in pyMax. -/
def pyMaxA {α : Type} [LinearOrder α] : List α → Option α
  | [] => none
  | x :: xs => some (xs.foldl max x)

/-- is_better (src/nmt.py line 490): `len(hist_valid_scores) == 0 or
valid_metric > max(hist_valid_scores)`; the max is only evaluated on a
nonempty history thanks to the short-circuit. -/
def isBetterB {α : Type} [LinearOrder α] (s : VState α) (m : α) : Bool :=
  match pyMaxA s.hist with
  | none => true
  | some mx => decide (mx < m)

/-- One validation decision of the training loop (src/nmt.py lines 490-521):
compute is_better, append the metric to the history, then follow the
nested if/elif of the source: an improving validation resets patience and
saves a checkpoint; a non-improving validation with patience below the
limit increments patience, and when the incremented patience equals the
limit it also increments num_trial, exits when num_trial equals
max-num-trial, and otherwise decays the learning rate, reloads the last
checkpoint and resets patience to 0. -/
def validStep {α : Type} [LinearOrder α] (patienceLimit maxTrial : Nat)
    (s : VState α) (m : α) : VState α × VEvents :=
  let better := isBetterB s m
  let hist2 := s.hist ++ [m]
  if better then
    ({ s with patience := 0, hist := hist2 },
      { saved := true, patienceIncremented := false, trialIncremented := false,
        reloaded := false, stopped := false })
  else if s.patience < patienceLimit then
    let p := s.patience + 1
    if p = patienceLimit then
      let t := s.numTrial + 1
      if t = maxTrial then
        ({ s with patience := p, numTrial := t, hist := hist2, stopped := true },
          { saved := false, patienceIncremented := true, trialIncremented := true,
            reloaded := false, stopped := true })
      else
        ({ s with patience := 0, numTrial := t, hist := hist2 },
          { saved := false, patienceIncremented := true, trialIncremented := true,
            reloaded := true, stopped := false })
    else
      ({ s with patience := p, hist := hist2 },
        { saved := false, patienceIncremented := true, trialIncremented := false,
          reloaded := false, stopped := false })
  else
    ({ s with hist := hist2 },
      { saved := false, patienceIncremented := false, trialIncremented := false,
        reloaded := false, stopped := false })

theorem isBetterB_iff {α : Type} [LinearOrder α] (s : VState α) (m : α) :
    isBetterB s m = true ↔ (s.hist = [] ∨ ∀ x ∈ s.hist, x < m) := by
  rcases s with ⟨p, t, hist, st⟩
  cases hist with
  | nil => simp [isBetterB, pyMaxA]
  | cons x xs =>
    simp only [isBetterB, pyMaxA, decide_eq_true_eq, List.cons_ne_nil, false_or,
      List.mem_cons]
    rw [foldl_max_lt_iff]
    constructor
    · rintro ⟨h1, h2⟩ y hy
      exact hy.elim (fun e => e ▸ h1) (h2 y)
    · intro h
      exact ⟨h x (Or.inl rfl), fun y hy => h y (Or.inr hy)⟩

/-- Claim C1 (counterexample): with patience limit 1 and max-trials 5, at a
non-improving validation (history [0], metric -1) taken from a state whose
patience counter is 0 — strictly below the limit — the trial counter is
nevertheless incremented.  The code increments the trial at the
non-improving validation whose patience increment reaches the limit, so a
trial requires patience-limit, not patience-limit + 1, consecutive
non-improving validations. -/
theorem C1_counterexample :
    isBetterB (⟨0, 0, [0], false⟩ : VState Int) (-1) = false ∧
    (⟨0, 0, [0], false⟩ : VState Int).patience < 1 ∧
    (validStep 1 5 (⟨0, 0, [0], false⟩ : VState Int) (-1)).2.trialIncremented = true := by
  decide

/-- Claim C1 (amended): at a non-improving validation the patience counter is
incremented exactly when it is below the configured patience limit; the
trial counter is incremented exactly when that increment makes the patience
counter equal the limit (so a trial requires patience-limit consecutive
non-improving validations); and the loop stops exactly when the incremented
trial counter equals the configured max-trials. -/
theorem C1_amended {α : Type} [LinearOrder α] (patienceLimit maxTrial : Nat)
    (s : VState α) (m : α) (hni : isBetterB s m = false) :
    ((validStep patienceLimit maxTrial s m).2.patienceIncremented = true ↔
      s.patience < patienceLimit) ∧
    ((validStep patienceLimit maxTrial s m).2.trialIncremented = true ↔
      s.patience + 1 = patienceLimit) ∧
    ((validStep patienceLimit maxTrial s m).2.trialIncremented = true →
      (validStep patienceLimit maxTrial s m).1.numTrial = s.numTrial + 1) ∧
    ((validStep patienceLimit maxTrial s m).2.stopped = true ↔
      s.patience + 1 = patienceLimit ∧ s.numTrial + 1 = maxTrial) := by
  by_cases h1 : s.patience < patienceLimit
  · by_cases h2 : s.patience + 1 = patienceLimit
    · by_cases h3 : s.numTrial + 1 = maxTrial
      · simp [validStep, hni, h1, h2, h3]
      · simp [validStep, hni, h1, h2, h3]
    · simp [validStep, hni, h1, h2]
  · have h2 : ¬(s.patience + 1 = patienceLimit) := by omega
    simp [validStep, hni, h1, h2]

/-- Claim C1 witness: the amended theorem applied at patience limit 2,
max-trials 3, a state with patience 1 and history [5], and the
non-improving metric 3. -/
theorem C1_amended_witness :
    isBetterB (⟨1, 0, [5], false⟩ : VState Int) 3 = false ∧
    (((validStep 2 3 (⟨1, 0, [5], false⟩ : VState Int) 3).2.patienceIncremented = true ↔
      (⟨1, 0, [5], false⟩ : VState Int).patience < 2) ∧
    ((validStep 2 3 (⟨1, 0, [5], false⟩ : VState Int) 3).2.trialIncremented = true ↔
      (⟨1, 0, [5], false⟩ : VState Int).patience + 1 = 2) ∧
    ((validStep 2 3 (⟨1, 0, [5], false⟩ : VState Int) 3).2.trialIncremented = true →
      (validStep 2 3 (⟨1, 0, [5], false⟩ : VState Int) 3).1.numTrial =
        (⟨1, 0, [5], false⟩ : VState Int).numTrial + 1) ∧
    ((validStep 2 3 (⟨1, 0, [5], false⟩ : VState Int) 3).2.stopped = true ↔
      (⟨1, 0, [5], false⟩ : VState Int).patience + 1 = 2 ∧
        (⟨1, 0, [5], false⟩ : VState Int).numTrial + 1 = 3)) :=
  ⟨by decide, C1_amended 2 3 ⟨1, 0, [5], false⟩ 3 (by decide)⟩

/-- Claim C4: at every validation event a checkpoint is saved exactly when the
new metric strictly exceeds the running maximum of the Validation History
(with the first validation, whose history is empty, counting as an
improvement by definition), and whenever a checkpoint is saved the patience
counter of the resulting state is 0. -/
theorem C4_checkpoint {α : Type} [LinearOrder α] (patienceLimit maxTrial : Nat)
    (s : VState α) (m : α) :
    ((validStep patienceLimit maxTrial s m).2.saved = true ↔
      (s.hist = [] ∨ ∀ x ∈ s.hist, x < m)) ∧
    ((validStep patienceLimit maxTrial s m).2.saved = true →
      (validStep patienceLimit maxTrial s m).1.patience = 0) := by
  have hiff := isBetterB_iff s m
  by_cases hb : isBetterB s m = true
  · simp [validStep, hb, hiff.mp hb]
  · have hnr : ¬(s.hist = [] ∨ ∀ x ∈ s.hist, x < m) := fun h => hb (hiff.mpr h)
    rw [Bool.not_eq_true] at hb
    by_cases h1 : s.patience < patienceLimit
    · by_cases h2 : s.patience + 1 = patienceLimit
      · by_cases h3 : s.numTrial + 1 = maxTrial
        · simp [validStep, hb, h1, h2, h3, hnr]
        · simp [validStep, hb, h1, h2, h3, hnr]
      · simp [validStep, hb, h1, h2, hnr]
    · simp [validStep, hb, h1, hnr]

namespace NMT

/-- NMT.beam_search (src/nmt.py lines 197-213): the body ignores its
arguments, sets hypotheses = 0 and returns it — the integer 0, not a list
of scored hypotheses. -/
def beam_search (src_sent : List String) (beam_size : Nat)
    (max_decoding_time_step : Nat) : Nat :=
  0

end NMT

/-- Claim C5 (code stub): on the failing input (source sentence [a], beam size
5, 70 decoding steps) beam_search returns the integer 0; its value is the
constant 0 for every input, so it never produces the sorted list of
(token sequence, score) hypotheses that its own docstring and the claim
describe. -/
theorem C5_beam_search_stub (src_sent : List String) (beam_size : Nat)
    (max_decoding_time_step : Nat) :
    NMT.beam_search src_sent beam_size max_decoding_time_step = 0 ∧
    NMT.beam_search ["a"] 5 70 = 0 :=
  ⟨rfl, rfl⟩

/-- compute_corpus_level_bleu_score (src/nmt.py lines 377-396), with the
external nltk corpus_bleu abstracted as the parameter bleu.  The guard
references[0][0] raises IndexError on an empty references list or an empty
first reference; when the first token of the first reference is the start
sentinel, every reference is replaced by ref[1:-1] (first and last token
removed); the hypotheses list is passed through unchanged. -/
def compute_corpus_level_bleu_score {α : Type}
    (bleu : List (List (List String)) → List (List String) → α)
    (references hypotheses : List (List String)) : Except String α :=
  match references with
  | [] => Except.error ("IndexError: list index out of range")
  | r0 :: _ =>
    match r0 with
    | [] => Except.error ("IndexError: list index out of range")
    | w0 :: _ =>
      let refs :=
        if w0 = "<s>" then references.map (fun ref => (ref.drop 1).dropLast)
        else references
      Except.ok (bleu (refs.map fun ref => [ref]) hypotheses)

/-- Claim C7: for every non-empty list of references that carry the leading
and trailing sentinel tokens (each reference has length at least 2, starts
with the start sentinel and ends with the end sentinel), the corpus-level
scorer calls the BLEU computation on every reference with exactly its first
and last token removed, and on the hypothesis list unmodified. -/
theorem C7_sentinel_strip {α : Type}
    (bleu : List (List (List String)) → List (List String) → α)
    (references hypotheses : List (List String))
    (hne : references ≠ [])
    (hsent : ∀ r ∈ references,
      2 ≤ r.length ∧ r.head? = some "<s>" ∧ r.getLast? = some "</s>") :
    compute_corpus_level_bleu_score bleu references hypotheses =
      Except.ok
        (bleu ((references.map fun ref => (ref.drop 1).dropLast).map fun ref => [ref])
          hypotheses) := by
  cases references with
  | nil => exact absurd rfl hne
  | cons r0 rest =>
    obtain ⟨hlen, hhead, _⟩ := hsent r0 (List.mem_cons_self r0 rest)
    cases r0 with
    | nil => simp at hhead
    | cons w0 ws =>
      simp only [List.head?_cons, Option.some.injEq] at hhead
      simp [compute_corpus_level_bleu_score, hhead]

/-- Claim C7 witness: the stripping theorem applied to the single reference
[<s>, a, </s>] and hypothesis [a], with the BLEU computation instantiated
by the function counting reference lists. -/
theorem C7_sentinel_strip_witness :
    (([["<s>", "a", "</s>"]] : List (List String)) ≠ [] ∧
      (∀ r ∈ ([["<s>", "a", "</s>"]] : List (List String)),
        2 ≤ r.length ∧ r.head? = some "<s>" ∧ r.getLast? = some "</s>")) ∧
    compute_corpus_level_bleu_score (fun rs _ => rs.length)
        [["<s>", "a", "</s>"]] [["a"]] =
      Except.ok
        ((fun (rs : List (List (List String))) (_ : List (List String)) => rs.length)
          (((([["<s>", "a", "</s>"]] : List (List String)).map
              fun ref => (ref.drop 1).dropLast).map fun ref => [ref]))
          [["a"]]) :=
  ⟨⟨by decide, by decide⟩,
    C7_sentinel_strip (fun rs _ => rs.length) [["<s>", "a", "</s>"]] [["a"]]
      (by decide) (by decide)⟩

/-- Positional parameters of NMT.load as defined (src/nmt.py line 321):
`def load(self, model_path)` — an instance method, not a staticmethod (the
decorator is commented out). -/
def loadParams : List String := ["self", "model_path"]

/-- Python positional binding: parameters are paired with the supplied
positional arguments in order. -/
def bindPositional (params args : List String) : List (String × String) :=
  params.zip args

/-- Python call protocol for plain positional calls: every parameter must
receive an argument and no argument may be left over, else TypeError. -/
def callPositional (params args : List String) :
    Except String (List (String × String)) :=
  if args.length < params.length then
    Except.error ("TypeError: missing required positional argument")
  else if params.length < args.length then
    Except.error ("TypeError: too many positional arguments")
  else Except.ok (bindPositional params args)

/-- The externally visible products of a completed decode run. -/
structure DecodeEffects where
  hypotheses : Bool
  bleuScore : Bool
  outputFile : Bool
deriving Repr, DecidableEq

/-- decode (src/nmt.py lines 541-567): after reading the test corpus it
evaluates `model = NMT.load(args[MODEL_PATH])` — an attribute call on the
class, so no instance is bound and the model-path string is the only
positional argument of the two-parameter method — and only afterwards would
it run beam search, compute the optional BLEU score and write the output
file. -/
def decode (modelPath : String) (hasTargetFile : Bool) :
    Except String DecodeEffects :=
  match callPositional loadParams [modelPath] with
  | Except.error e => Except.error e
  | Except.ok _ =>
      Except.ok { hypotheses := true, bleuScore := hasTargetFile, outputFile := true }

/-- Claim C8: the class-level call NMT.load(MODEL_PATH) binds the model-path
string to the instance parameter self, leaves model_path unbound, and
therefore every invocation of decode fails with a TypeError before
producing any hypothesis, BLEU score, or output file. -/
theorem C8_decode_fails (modelPath : String) (hasTargetFile : Bool) :
    bindPositional loadParams [modelPath] = [("self", modelPath)] ∧
    decode modelPath hasTargetFile =
      Except.error ("TypeError: missing required positional argument") :=
  ⟨rfl, rfl⟩

/-- torch.load abstracted over the file system, modelled as the list of paths
present on disk: loading a missing path fails. -/
def torchLoad (fs : List String) (path : String) : Except String Unit :=
  if path ∈ fs then Except.ok () else Except.error ("FileNotFoundError: " ++ path)

namespace NMT

/-- NMT.load (src/nmt.py lines 321-326): restores the encoder from
model_path-encoder and the decoder from model_path-decoder. -/
def load (fs : List String) (model_path : String) : Except String Unit :=
  match torchLoad fs (model_path ++ "-encoder") with
  | Except.error e => Except.error e
  | Except.ok _ =>
    match torchLoad fs (model_path ++ "-decoder") with
    | Except.error e => Except.error e
    | Except.ok _ => Except.ok ()

/-- NMT.save (src/nmt.py lines 328-333): the two checkpoint artifact paths
written for a given save path. -/
def save_paths (model_save_path : String) : List String :=
  [model_save_path ++ "-encoder", model_save_path ++ "-decoder"]

/-- NMT.__init__ (src/nmt.py lines 70-79): when keep_train is set the
constructor immediately calls self.load with the literal path model. -/
def initLoad (fs : List String) (keep_train : Bool) : Except String Unit :=
  if keep_train then load fs ("model") else Except.ok ()

end NMT

/-- The configuration train derives from its arguments (src/nmt.py lines
414-423): model_save_path is the string literal model (the --save-to line
is commented out), and the NMT constructor is called with keep_train=True. -/
structure TrainSetup where
  model_save_path : String
  keep_train : Bool
deriving Repr, DecidableEq

/-- train (src/nmt.py lines 400-423) as a function of the --save-to option. -/
def trainSetup (saveTo : Option String) : TrainSetup :=
  { model_save_path := "model", keep_train := true }

/-- Claim C9: for every value of --save-to, train constructs the model with
keep_train=True, that constructor load succeeds exactly when both
model-encoder and model-decoder exist on disk (so it fails when either is
absent), and all checkpoints are saved to the same fixed artifacts
model-encoder and model-decoder, the --save-to option being ignored. -/
theorem C9_train_fixed_paths (saveTo : Option String) (fs : List String) :
    (trainSetup saveTo).keep_train = true ∧
    (trainSetup saveTo).model_save_path = "model" ∧
    (NMT.initLoad fs (trainSetup saveTo).keep_train = Except.ok () ↔
      ("model-encoder" ∈ fs ∧ "model-decoder" ∈ fs)) ∧
    NMT.save_paths (trainSetup saveTo).model_save_path =
      ["model-encoder", "model-decoder"] := by
  refine ⟨rfl, rfl, ?_, rfl⟩
  show NMT.load fs ("model") = Except.ok () ↔ _
  by_cases he : "model-encoder" ∈ fs
  · by_cases hd : "model-decoder" ∈ fs
    · simp [NMT.load, torchLoad, he, hd]
    · simp [NMT.load, torchLoad, he, hd]
  · simp [NMT.load, torchLoad, he]

/-- Decoded symbol row to word sequence (src/nmt.py lines 301-305): consume
indices until the end sentinel index 2 is met, mapping each through
id2word. -/
def symbolsToWords (id2word : Nat → String) (sent : List Nat) : List String :=
  (sent.takeWhile fun idx => idx != 2).map id2word

/-- One dev batch as consumed by evaluate_ppl, with the external model and
vocabulary abstracted: the shuffled reference target sentences, the
original within-batch indices produced by batch_iter, the scalar loss
returned by decode_without_bp, and the predicted symbol rows. -/
structure EvalBatch where
  tgt_sents : List (List String)
  orig_indices : List Nat
  loss : ℚ
  symbols : List (List Nat)
deriving Repr, DecidableEq

/-- The per-batch reordering of evaluate_ppl (src/nmt.py lines 297-308):
allocate [None] * n and write the value of shuffled position index at slot
idxs[index]. -/
def scatter {β : Type} (n : Nat) (idxs : List Nat) (vals : List β) :
    List (Option β) :=
  (idxs.zip vals).foldl (fun acc p => acc.set p.1 (some p.2)) (List.replicate n none)

/-- batch_hyp_orderd of evaluate_ppl for one batch: hypotheses of the batch
scattered back to their original within-batch positions. -/
def orderBatch (id2word : Nat → String) (b : EvalBatch) :
    List (Option (List String)) :=
  scatter b.symbols.length b.orig_indices (b.symbols.map (symbolsToWords id2word))

/-- The decode.txt writing loop (src/nmt.py lines 312-314): one
space-joined line per zip(ref_corpus, hyp_corpus_ordered) pair; joining a
missing (None) hypothesis would raise TypeError, modelled as the error
case. -/
def writeLines :
    List (List String × Option (List String)) → Except String (List String)
  | [] => Except.ok []
  | (_, none) :: _ => Except.error ("TypeError: can only join strings")
  | (_, some h) :: rest =>
    match writeLines rest with
    | Except.error e => Except.error e
    | Except.ok ls => Except.ok ((String.intercalate " " h) :: ls)

/-- The values evaluate_ppl computes in one call. -/
structure EvalResult where
  meanLoss : ℚ
  refCorpus : List (List String)
  hypCorpus : List (List String)
  hypCorpusOrdered : List (Option (List String))
  decodeLines : List String

/-- evaluate_ppl (src/nmt.py lines 278-318) over the abstracted batches:
ref_corpus extends the shuffled batch references in batch order;
hyp_corpus collects hypotheses in shuffled order; hyp_corpus_ordered
collects the per-batch reordered hypotheses; decode.txt is opened in
append mode and receives one joined line per zip(ref_corpus,
hyp_corpus_ordered) pair; then line 315 computes
compute_corpus_level_bleu_score(ref_corpus, hyp_corpus) — whose IndexError
on an empty reference corpus or an empty first reference propagates — and
line 316 prints the value; finally the returned scalar is cum_loss / count
with count the number of batches (ZeroDivisionError when there is none,
though the BLEU IndexError fires first in that case). -/
def evaluate_ppl {α : Type}
    (bleu : List (List (List String)) → List (List String) → α)
    (id2word : Nat → String) (batches : List EvalBatch)
    (decodeTxt : List String) : Except String (EvalResult × List String) :=
  let refCorpus := batches.flatMap fun b => b.tgt_sents
  let hypCorpus := batches.flatMap fun b => b.symbols.map (symbolsToWords id2word)
  let hypOrdered := batches.flatMap (orderBatch id2word)
  let cumLoss := (batches.map fun b => b.loss).sum
  match writeLines (refCorpus.zip hypOrdered) with
  | Except.error e => Except.error e
  | Except.ok lines =>
    match compute_corpus_level_bleu_score bleu refCorpus hypCorpus with
    | Except.error e => Except.error e
    | Except.ok _ =>
      if batches.length = 0 then
        Except.error ("ZeroDivisionError: division by zero")
      else
        Except.ok
          ({ meanLoss := cumLoss / (batches.length : ℚ)
             refCorpus := refCorpus
             hypCorpus := hypCorpus
             hypCorpusOrdered := hypOrdered
             decodeLines := lines }, decodeTxt ++ lines)

theorem foldl_set_length {β : Type} (l : List (Nat × β)) (acc : List (Option β)) :
    (l.foldl (fun a q => a.set q.1 (some q.2)) acc).length = acc.length := by
  induction l generalizing acc with
  | nil => rfl
  | cons q rest ih =>
    simp only [List.foldl_cons]
    rw [ih, List.length_set]

theorem foldl_set_getElem?_of_not_mem {β : Type} (l : List (Nat × β))
    (acc : List (Option β)) (p : Nat) (h : ∀ q ∈ l, q.1 ≠ p) :
    (l.foldl (fun a q => a.set q.1 (some q.2)) acc)[p]? = acc[p]? := by
  induction l generalizing acc with
  | nil => rfl
  | cons q rest ih =>
    simp only [List.foldl_cons]
    rw [ih _ (fun r hr => h r (List.mem_cons_of_mem q hr)),
      List.getElem?_set_ne (h q (List.mem_cons_self q rest))]

theorem foldl_set_getElem?_mem {β : Type} (l : List (Nat × β))
    (acc : List (Option β)) (i : Nat) (v : β)
    (hmem : (i, v) ∈ l) (hnd : (l.map Prod.fst).Nodup) (hi : i < acc.length) :
    (l.foldl (fun a q => a.set q.1 (some q.2)) acc)[i]? = some (some v) := by
  induction l generalizing acc with
  | nil => cases hmem
  | cons q rest ih =>
    simp only [List.map_cons, List.nodup_cons] at hnd
    obtain ⟨hq, hnd2⟩ := hnd
    simp only [List.foldl_cons]
    rcases List.mem_cons.mp hmem with heq | hmem2
    · have h1 : q.1 = i := by rw [← heq]
      have h2 : q.2 = v := by rw [← heq]
      rw [foldl_set_getElem?_of_not_mem rest _ i
          (fun r hr hri => hq (h1 ▸ hri ▸ List.mem_map_of_mem Prod.fst hr)),
        h1, h2, List.getElem?_set_eq_of_lt _ hi]
    · exact ih _ hmem2 hnd2 (by rw [List.length_set]; exact hi)

theorem scatter_getElem? {β : Type} (n : Nat) (idxs : List Nat) (vals : List β)
    (hnd : idxs.Nodup) (hlen : idxs.length ≤ vals.length)
    (i : Nat) (v : β) (hmem : (i, v) ∈ idxs.zip vals) (hi : i < n) :
    (scatter n idxs vals)[i]? = some (some v) := by
  apply foldl_set_getElem?_mem _ _ _ _ hmem
  · rw [List.map_fst_zip _ _ hlen]
    exact hnd
  · rw [List.length_replicate]
    exact hi

theorem scatter_isSome {β : Type} (n : Nat) (idxs : List Nat) (vals : List β)
    (hperm : idxs.Perm (List.range n)) (hv : vals.length = n) :
    ∀ o ∈ scatter n idxs vals, o.isSome = true := by
  have hil : idxs.length = n := by rw [hperm.length_eq, List.length_range]
  have hnd : idxs.Nodup := hperm.nodup_iff.mpr (List.nodup_range n)
  intro o ho
  obtain ⟨p, hp, hpo⟩ := List.getElem_of_mem ho
  have hpn : p < n := by
    rw [scatter, foldl_set_length, List.length_replicate] at hp
    exact hp
  have hpi : p ∈ idxs := hperm.mem_iff.mpr (List.mem_range.mpr hpn)
  obtain ⟨j, hj, hjp⟩ := List.getElem_of_mem hpi
  have hjz : j < (idxs.zip vals).length := by
    rw [List.length_zip]
    omega
  have hjv : j < vals.length := by omega
  have hmem : (p, vals[j]) ∈ idxs.zip vals := by
    have := List.getElem_mem hjz
    rwa [List.getElem_zip, hjp] at this
  have hsc := scatter_getElem? n idxs vals hnd (by omega) p _ hmem hpn
  rw [List.getElem?_eq_getElem hp, hpo] at hsc
  rw [Option.some_inj.mp hsc]
  rfl

theorem writeLines_ok (l : List (List String × Option (List String)))
    (h : ∀ p ∈ l, p.2.isSome = true) :
    writeLines l =
      Except.ok (l.map fun p => String.intercalate " " (p.2.getD [])) := by
  induction l with
  | nil => rfl
  | cons q rest ih =>
    obtain ⟨r, o⟩ := q
    cases o with
    | none =>
      have := h (r, none) (List.mem_cons_self _ _)
      simp at this
    | some hyp =>
      simp only [writeLines, ih fun p hp => h p (List.mem_cons_of_mem _ hp)]
      rfl

theorem orderBatch_length (id2word : Nat → String) (b : EvalBatch) :
    (orderBatch id2word b).length = b.symbols.length := by
  rw [orderBatch, scatter, foldl_set_length, List.length_replicate]

theorem compute_bleu_ok {α : Type}
    (bleu : List (List (List String)) → List (List String) → α)
    (references hypotheses : List (List String))
    (r0 : List String) (rest : List (List String))
    (href : references = r0 :: rest) (hr0 : r0 ≠ []) :
    ∃ v, compute_corpus_level_bleu_score bleu references hypotheses =
      Except.ok v := by
  subst href
  cases r0 with
  | nil => exact absurd rfl hr0
  | cons w0 ws => exact ⟨_, rfl⟩

/-- Claim C10 (counterexample): a single batch with one empty reference
sentence satisfies the claim's batch conditions (non-empty batch list,
original indices a permutation, lengths matching), yet evaluate_ppl does
not return the mean per-batch loss: after the decode.txt line is written,
the corpus-level BLEU call of src/nmt.py line 315 raises IndexError at
references[0][0], so the call never returns. -/
theorem C10_counterexample :
    (([⟨[[]], [0], 4, [[5]]⟩] : List EvalBatch) ≠ [] ∧
      (∀ b ∈ ([⟨[[]], [0], 4, [[5]]⟩] : List EvalBatch),
        b.orig_indices.Perm (List.range b.symbols.length) ∧
        b.tgt_sents.length = b.symbols.length)) ∧
    evaluate_ppl (fun rs _ => rs.length) (fun _ => "w")
        [⟨[[]], [0], 4, [[5]]⟩] [] =
      Except.error ("IndexError: list index out of range") :=
  ⟨⟨by decide, by decide⟩, rfl⟩

/-- Claim C10 (amended): every call of evaluate_ppl on a non-empty list of
batches whose original-index lists are permutations of their positions,
and whose reference corpus is non-empty with a non-empty first reference
sentence (so that the BLEU computation of src/nmt.py line 315 does not
raise IndexError), succeeds and, in addition to returning the mean
per-batch loss, appends to decode.txt one space-joined line per dev
sentence (append mode: the new file contents are the old contents followed
by the new lines), where the lines pair the reference corpus kept in
shuffled batch order with the hypothesis corpus whose entries are restored
per batch to their original within-batch positions. -/
theorem C10_evaluate_ppl {α : Type}
    (bleu : List (List (List String)) → List (List String) → α)
    (id2word : Nat → String) (batches : List EvalBatch)
    (decodeTxt : List String)
    (hne : batches ≠ [])
    (hb : ∀ b ∈ batches, b.orig_indices.Perm (List.range b.symbols.length) ∧
      b.tgt_sents.length = b.symbols.length)
    (href : ∃ r0 rest, (batches.flatMap fun b => b.tgt_sents) = r0 :: rest ∧
      r0 ≠ []) :
    ∃ res newFile,
      evaluate_ppl bleu id2word batches decodeTxt = Except.ok (res, newFile) ∧
      res.meanLoss = (batches.map fun b => b.loss).sum / (batches.length : ℚ) ∧
      newFile = decodeTxt ++ res.decodeLines ∧
      res.decodeLines.length = (batches.map fun b => b.tgt_sents.length).sum ∧
      res.refCorpus = (batches.flatMap fun b => b.tgt_sents) ∧
      res.hypCorpusOrdered = batches.flatMap (orderBatch id2word) ∧
      res.decodeLines = (res.refCorpus.zip res.hypCorpusOrdered).map
        (fun p => String.intercalate " " (p.2.getD [])) ∧
      (∀ b ∈ batches, ∀ j, j < b.symbols.length →
        (orderBatch id2word b).getD (b.orig_indices.getD j 0) none =
          some (symbolsToWords id2word (b.symbols.getD j []))) := by
  have hsome : ∀ o ∈ batches.flatMap (orderBatch id2word), o.isSome = true := by
    intro o ho
    obtain ⟨b, hbmem, hob⟩ := List.mem_flatMap.mp ho
    exact scatter_isSome _ _ _ (hb b hbmem).1 (by simp) o hob
  have hzsome : ∀ p ∈ (batches.flatMap fun b => b.tgt_sents).zip
      (batches.flatMap (orderBatch id2word)), p.2.isSome = true := by
    intro p hp
    obtain ⟨p1, p2⟩ := p
    exact hsome p2 (List.of_mem_zip hp).2
  have hw := writeLines_ok _ hzsome
  have hcount : ¬(batches.length = 0) := by
    intro h
    exact hne (List.length_eq_zero.mp h)
  obtain ⟨r0, rest, hrc, hr0⟩ := href
  obtain ⟨bv, hbv⟩ := compute_bleu_ok bleu (batches.flatMap fun b => b.tgt_sents)
    (batches.flatMap fun b => b.symbols.map (symbolsToWords id2word)) r0 rest hrc hr0
  have hrun : evaluate_ppl bleu id2word batches decodeTxt = Except.ok
      ({ meanLoss := (batches.map fun b => b.loss).sum / (batches.length : ℚ)
         refCorpus := batches.flatMap fun b => b.tgt_sents
         hypCorpus := batches.flatMap fun b => b.symbols.map (symbolsToWords id2word)
         hypCorpusOrdered := batches.flatMap (orderBatch id2word)
         decodeLines := ((batches.flatMap fun b => b.tgt_sents).zip
             (batches.flatMap (orderBatch id2word))).map
           (fun p => String.intercalate " " (p.2.getD [])) },
       decodeTxt ++ ((batches.flatMap fun b => b.tgt_sents).zip
             (batches.flatMap (orderBatch id2word))).map
           (fun p => String.intercalate " " (p.2.getD []))) := by
    simp only [evaluate_ppl]
    rw [hw, hbv]
    simp only [if_neg hcount]
  refine ⟨_, _, hrun, rfl, rfl, ?_, rfl, rfl, rfl, ?_⟩
  · rw [List.length_map, List.length_zip]
    have h1 : (batches.flatMap fun b => b.tgt_sents).length
        = (batches.map fun b => b.tgt_sents.length).sum := by
      rw [List.length_flatMap]
      rfl
    have h2 : (batches.flatMap (orderBatch id2word)).length
        = (batches.map fun b => b.tgt_sents.length).sum := by
      rw [List.length_flatMap]
      congr 1
      apply List.map_congr_left
      intro b hbm
      rw [Function.comp_apply, orderBatch_length]
      exact ((hb b hbm).2).symm
    rw [h1, h2, Nat.min_self]
  · intro b hbm j hj
    obtain ⟨hperm, hlen⟩ := hb b hbm
    have hil : b.orig_indices.length = b.symbols.length := by
      rw [hperm.length_eq, List.length_range]
    have hji : j < b.orig_indices.length := by omega
    have hidx : b.orig_indices.getD j 0 = b.orig_indices[j] := by
      rw [List.getD_eq_getElem?_getD, List.getElem?_eq_getElem hji]
      rfl
    have hsym : b.symbols.getD j [] = b.symbols[j] := by
      rw [List.getD_eq_getElem?_getD, List.getElem?_eq_getElem hj]
      rfl
    have hin : b.orig_indices[j] < b.symbols.length := by
      have hm : b.orig_indices[j] ∈ List.range b.symbols.length :=
        hperm.mem_iff.mp (List.getElem_mem hji)
      exact List.mem_range.mp hm
    have hjz : j < (b.orig_indices.zip
        (b.symbols.map (symbolsToWords id2word))).length := by
      rw [List.length_zip, List.length_map]
      omega
    have hmem : (b.orig_indices[j], symbolsToWords id2word b.symbols[j])
        ∈ b.orig_indices.zip (b.symbols.map (symbolsToWords id2word)) := by
      have hg := List.getElem_mem hjz
      rwa [List.getElem_zip, List.getElem_map] at hg
    have hnd : b.orig_indices.Nodup := hperm.nodup_iff.mpr (List.nodup_range _)
    have hsc := scatter_getElem? b.symbols.length b.orig_indices
      (b.symbols.map (symbolsToWords id2word)) hnd
      (by rw [List.length_map]; omega) _ _ hmem hin
    rw [hidx, hsym, orderBatch, List.getD_eq_getElem?_getD, hsc]
    rfl

/-- Concrete dev batch used to exercise evaluate_ppl: two sentences whose
batch order is the reverse of their original order. -/
def wBatch : EvalBatch :=
  ⟨[["a"], ["b"]], [1, 0], 4, [[5, 2], [7]]⟩

/-- Claim C10 witness: the amended evaluate_ppl theorem applied to the single
concrete batch wBatch, an empty initial decode.txt, and the BLEU
computation instantiated by the function counting reference lists. -/
theorem C10_evaluate_ppl_witness :
    (([wBatch] : List EvalBatch) ≠ [] ∧
      (∀ b ∈ [wBatch], b.orig_indices.Perm (List.range b.symbols.length) ∧
        b.tgt_sents.length = b.symbols.length) ∧
      (∃ r0 rest, ([wBatch].flatMap fun b => b.tgt_sents) = r0 :: rest ∧
        r0 ≠ [])) ∧
    (∃ res newFile,
      evaluate_ppl (fun rs _ => rs.length) (fun n => toString n) [wBatch] [] =
        Except.ok (res, newFile) ∧
      res.meanLoss = ([wBatch].map fun b => b.loss).sum /
        (([wBatch] : List EvalBatch).length : ℚ) ∧
      newFile = [] ++ res.decodeLines ∧
      res.decodeLines.length = ([wBatch].map fun b => b.tgt_sents.length).sum ∧
      res.refCorpus = ([wBatch].flatMap fun b => b.tgt_sents) ∧
      res.hypCorpusOrdered = [wBatch].flatMap (orderBatch (fun n => toString n)) ∧
      res.decodeLines = (res.refCorpus.zip res.hypCorpusOrdered).map
        (fun p => String.intercalate " " (p.2.getD [])) ∧
      (∀ b ∈ [wBatch], ∀ j, j < b.symbols.length →
        (orderBatch (fun n => toString n) b).getD (b.orig_indices.getD j 0) none =
          some (symbolsToWords (fun n => toString n) (b.symbols.getD j [])))) :=
  ⟨⟨by decide, by decide, ⟨["a"], [["b"]], rfl, by decide⟩⟩,
    C10_evaluate_ppl (fun rs _ => rs.length) (fun n => toString n) [wBatch] []
      (by decide) (by decide) ⟨["a"], [["b"]], rfl, by decide⟩⟩
